import Mathlib

/-!
Verification of the Howizard real-time audio engine (audio_engine.h / audio_engine.cpp)
against its natural-language specification.

Shallow embedding conventions:
* C `float` arithmetic is modelled exactly over `ℚ` (every float literal becomes the
  rational it denotes in the source text, e.g. `1e-6f ↦ 1/1000000`, `0.97f ↦ 97/100`).
* Accumulation loops become `Finset.sum` / `List.foldl`; circular-buffer indexing keeps
  the source's modular arithmetic.
* External library calls (`sqrtf`, `powf`, `cosf`, `sinf`, `aec_process`, the
  upsampler invocations that only feed blended output) are passed in as oracle
  function parameters, so every theorem is quantified over their behaviour.
* A C cast `(int16_t)(x)` on an in-range value truncates toward zero; `truncQ` models it.
-/

/-- `std::clamp(x, lo, hi)` over exact rationals. -/
def clampQ (x lo hi : ℚ) : ℚ := min (max x lo) hi

/-- `std::clamp` on integers (used for the `int` parameter setters). -/
def clampZ (x lo hi : ℤ) : ℤ := min (max x lo) hi

/-- Truncation toward zero of a rational, modelling a C float→int cast of an
in-range value.  `Int.tdiv` is T-division, matching C. -/
def truncQ (x : ℚ) : ℤ := Int.tdiv x.num (x.den : ℤ)

/-- `(int16_t)(std::clamp(x, -1.0f, 1.0f) * 32767.0f)` — the engine's float→PCM
conversion (used at the output stage and when feeding the external AEC). -/
def clampToI16 (x : ℚ) : ℤ := truncQ (clampQ x (-1) 1 * 32767)

/-!  ## NLMS adaptive filter (`class NlmsFilter`, audio_engine.cpp)  -/

/-- State of `NlmsFilter`: tap weights `_weights`, circular reference buffer
`_refBuf`, length `_len` and write index `_pos`. -/
structure NlmsFilter where
  len : ℕ
  weights : List ℚ
  refBuf : List ℚ
  pos : ℕ
deriving Repr, DecidableEq

/-- `NlmsFilter::init(filterLength)`: zero-initialised weights and reference buffer. -/
def NlmsFilter.init (filterLength : ℕ) : NlmsFilter :=
  ⟨filterLength, List.replicate filterLength 0, List.replicate filterLength 0, 0⟩

/-- The circular-buffer index `(_pos - i + _len) % _len` used by
`NlmsFilter::process` (computed in ℕ; for `i < len` the value agrees with the
C `int` computation). -/
def nlmsIdx (len pos i : ℕ) : ℕ := (pos + len - i) % len

/-- `NlmsFilter::process(ref, primary, stepSize)`, returning the voice estimate
and the updated state.  Mirrors the source step by step: store the reference
sample, accumulate estimate and reference power over the circular buffer,
form the true (unclamped) error, normalise the step by `power + 1e-6`,
update each tap and reset any tap whose magnitude exceeds 10, advance the
write position, and return the estimate. -/
def NlmsFilter.process (s : NlmsFilter) (ref primary stepSize : ℚ) : ℚ × NlmsFilter :=
  if s.len = 0 then (0, s)
  else
    let r := s.refBuf.set s.pos ref
    let estimate := ∑ i ∈ Finset.range s.len,
      s.weights.getD i 0 * r.getD (nlmsIdx s.len s.pos i) 0
    let power := ∑ i ∈ Finset.range s.len,
      r.getD (nlmsIdx s.len s.pos i) 0 * r.getD (nlmsIdx s.len s.pos i) 0
    let error := primary - estimate
    let normStep := stepSize / (power + 1/1000000)
    let newW := (List.range s.len).map (fun i =>
      let w := s.weights.getD i 0 + normStep * error * r.getD (nlmsIdx s.len s.pos i) 0
      if 10 < |w| then 0 else w)
    (estimate, ⟨s.len, newW, r, (s.pos + 1) % s.len⟩)

/-- The per-tap divergence guard of `NlmsFilter::process`:
`if (fabsf(w) > 10.0f) w = 0.0f`. -/
def guardWeight (w : ℚ) : ℚ := if 10 < |w| then 0 else w

/-- One `process` call exactly as claim C2 words it (specification-side
definition, for refinement comparison with `NlmsFilter.process`): store
`r[p] = x`; estimate `ŷ = Σ w[i]·r[(p−i) mod L]`; power `P = Σ r²` over the
buffer; unclamped error `e = d − ŷ`; normalised step `μ/(P + 1e-6)`; tap
update `w[i] += normStep·e·r[(p−i) mod L]` with no further adjustment;
advance `p`; return `ŷ`. -/
def NlmsFilter.processSpec (s : NlmsFilter) (ref primary stepSize : ℚ) : ℚ × NlmsFilter :=
  let r := s.refBuf.set s.pos ref
  let estimate := ∑ i ∈ Finset.range s.len,
    s.weights.getD i 0 * r.getD (nlmsIdx s.len s.pos i) 0
  let power := ∑ j ∈ Finset.range s.len, r.getD j 0 * r.getD j 0
  let error := primary - estimate
  let normStep := stepSize / (power + 1/1000000)
  let newW := (List.range s.len).map (fun i =>
    s.weights.getD i 0 + normStep * error * r.getD (nlmsIdx s.len s.pos i) 0)
  (estimate, ⟨s.len, newW, r, (s.pos + 1) % s.len⟩)

/-- Folding a sequence of `process(ref, primary, stepSize)` calls. -/
def NlmsFilter.processAll (s : NlmsFilter) (calls : List (ℚ × ℚ × ℚ)) : NlmsFilter :=
  calls.foldl (fun t c => (t.process c.1 c.2.1 c.2.2).2) s

/-!  ## Parameter record (`struct AudioEngineParams`, audio_engine.h)  -/

/-- `struct AudioEngineParams` — the process-wide configuration record,
field for field (floats as ℚ, ints as ℤ). -/
structure AudioEngineParams where
  micGain : ℚ
  hpfEnabled : Bool
  hpfFrequency : ℚ
  lpfEnabled : Bool
  lpfFrequency : ℚ
  eqLowGain : ℚ
  eqMidGain : ℚ
  eqHighGain : ℚ
  nsEnabled : Bool
  nsMode : ℤ
  agcEnabled : Bool
  agcMode : ℤ
  agcCompressionGainDb : ℤ
  agcLimiterEnabled : Bool
  agcTargetLevelDbfs : ℤ
  veEnabled : Bool
  veBlend : ℚ
  veStepSize : ℚ
  veFilterLength : ℤ
  veMaxAttenuation : ℚ
  veRefGain : ℚ
  veRefHpf : ℚ
  veRefLpf : ℚ
  veMode : ℤ
  veAecMode : ℤ
  veAecFilterLen : ℤ
  veVadEnabled : Bool
  veVadMode : ℤ
  veVadGateEnabled : Bool
  veVadGateAtten : ℚ
  outputGain : ℚ
  outputVolume : ℤ
  outputMute : Bool
  boostEnabled : Bool

/-- The in-class default member initialisers of `AudioEngineParams`. -/
def defaultParams : AudioEngineParams where
  micGain := 180
  hpfEnabled := true
  hpfFrequency := 80
  lpfEnabled := false
  lpfFrequency := 18000
  eqLowGain := 0
  eqMidGain := 0
  eqHighGain := 0
  nsEnabled := false
  nsMode := 2
  agcEnabled := false
  agcMode := 2
  agcCompressionGainDb := 9
  agcLimiterEnabled := true
  agcTargetLevelDbfs := -3
  veEnabled := false
  veBlend := 1/2
  veStepSize := 8/100
  veFilterLength := 64
  veMaxAttenuation := 6/10
  veRefGain := 1/2
  veRefHpf := 150
  veRefLpf := 3000
  veMode := 0
  veAecMode := 1
  veAecFilterLen := 4
  veVadEnabled := true
  veVadMode := 3
  veVadGateEnabled := true
  veVadGateAtten := 15/100
  outputGain := 3/2
  outputVolume := 100
  outputMute := true
  boostEnabled := false

/-- `struct AudioLevels` — published meter snapshot. -/
structure AudioLevels where
  rmsLeft : ℚ
  rmsRight : ℚ
  peakLeft : ℚ
  peakRight : ℚ
  rmsHP : ℚ
  peakHP : ℚ
  vadSpeechDetected : Bool
deriving Repr, DecidableEq

/-- All-zero levels (the default member initialisers of `AudioLevels`). -/
def zeroLevels : AudioLevels := ⟨0, 0, 0, 0, 0, 0, false⟩

/-- `AudioEngine::setParams(p)`: `_params = p;` — the record is stored verbatim
(the state is the engine's `_params` field). -/
def AudioEngine.setParams (st : AudioEngineParams) (p : AudioEngineParams) : AudioEngineParams := p

/-- `AudioEngine::getParams()`: returns the stored `_params`. -/
def AudioEngine.getParams (st : AudioEngineParams) : AudioEngineParams := st

/-- `AudioEngine::setOutputGain(gain)`:
`_params.outputGain = std::clamp(gain, 0.0f, 4.0f);`. -/
def AudioEngine.setOutputGain (st : AudioEngineParams) (gain : ℚ) : AudioEngineParams :=
  { st with outputGain := clampQ gain 0 4 }

/-- Modelled from the spec: the field-wise clamp of a parameter record to the
declared bounds of the data model (§3) — the repository has no such bulk
clamping function, only the per-field setters; this definition is the
specification side of claim C7's equation. -/
def clampParams (p : AudioEngineParams) : AudioEngineParams :=
  { p with
    micGain := clampQ p.micGain 0 240
    hpfFrequency := clampQ p.hpfFrequency 20 2000
    lpfFrequency := clampQ p.lpfFrequency 500 20000
    eqLowGain := clampQ p.eqLowGain (-12) 12
    eqMidGain := clampQ p.eqMidGain (-12) 12
    eqHighGain := clampQ p.eqHighGain (-12) 12
    nsMode := clampZ p.nsMode 0 2
    agcMode := clampZ p.agcMode 0 3
    agcCompressionGainDb := clampZ p.agcCompressionGainDb 0 90
    agcTargetLevelDbfs := clampZ p.agcTargetLevelDbfs (-31) 0
    veBlend := clampQ p.veBlend 0 1
    veStepSize := clampQ p.veStepSize (1/100) 1
    veFilterLength := clampZ p.veFilterLength 16 512
    veMaxAttenuation := clampQ p.veMaxAttenuation 0 1
    veRefGain := clampQ p.veRefGain (1/10) 5
    veRefHpf := clampQ p.veRefHpf 20 500
    veRefLpf := clampQ p.veRefLpf 1000 8000
    veMode := clampZ p.veMode 0 1
    veAecFilterLen := clampZ p.veAecFilterLen 1 6
    veVadMode := clampZ p.veVadMode 0 4
    veVadGateAtten := clampQ p.veVadGateAtten 0 1
    outputGain := clampQ p.outputGain 0 6
    outputVolume := clampZ p.outputVolume 0 100 }

/-- An out-of-range parameter record: `micGain = 500` exceeds the declared
bound 240 (all other fields at their defaults). -/
def outOfRangeParams : AudioEngineParams := { defaultParams with micGain := 500 }

/-!  ## Biquad (`AudioEngine::Biquad`, Direct Form II Transposed)  -/

/-- `AudioEngine::Biquad`: five coefficients plus the two state variables. -/
structure Biquad where
  b0 : ℚ
  b1 : ℚ
  b2 : ℚ
  a1 : ℚ
  a2 : ℚ
  z1 : ℚ
  z2 : ℚ
deriving Repr, DecidableEq

/-- `Biquad::process(in)` — Direct Form II Transposed update, returning the
output sample and the updated state. -/
def Biquad.process (bq : Biquad) (input : ℚ) : ℚ × Biquad :=
  let out := bq.b0 * input + bq.z1
  (out, { bq with
    z1 := bq.b1 * input - bq.a1 * out + bq.z2
    z2 := bq.b2 * input - bq.a2 * out })

/-- `Biquad::reset()` — zero the state variables. -/
def Biquad.reset (bq : Biquad) : Biquad := { bq with z1 := 0, z2 := 0 }

/-- Run a biquad over a sample sequence, collecting outputs and final state. -/
def Biquad.processList (bq : Biquad) : List ℚ → List ℚ × Biquad
  | [] => ([], bq)
  | x :: xs =>
    let r := bq.process x
    let rest := r.2.processList xs
    (r.1 :: rest.1, rest.2)

/-- `AudioEngine::calcPeakEqCoeffs(bq, freq, gainDb, Q, sampleRate)`.
The transcendental inputs are passed as oracle values: `A` stands for
`powf(10, gainDb/40)` and `cosw0`/`sinw0` for `cosf(w0)`/`sinf(w0)` with
`w0 = 2π·freq/sampleRate`.  The `|gainDb| < 0.1` branch writes the identity
coefficients before any of those are used.  State (`z1`, `z2`) is untouched. -/
def calcPeakEqCoeffs (bq : Biquad) (gainDb Q A cosw0 sinw0 : ℚ) : Biquad :=
  if |gainDb| < 1/10 then
    { bq with b0 := 1, b1 := 0, b2 := 0, a1 := 0, a2 := 0 }
  else
    let alpha := sinw0 / (2 * Q)
    let a0 := 1 + alpha / A
    { bq with
      b0 := (1 + alpha * A) / a0
      b1 := (-2 * cosw0) / a0
      b2 := (1 - alpha * A) / a0
      a1 := (-2 * cosw0) / a0
      a2 := (1 - alpha / A) / a0 }

/-!  ## Output stage of `AudioEngine::processLoop` (steps 9–12)

Per block: apply `outputGain`; accumulate sum-of-squares and peak per channel;
publish levels (RMS via `sqrtf`, peak with `PEAK_DECAY` hold); clamp and
convert to interleaved int16; zero the buffer when `outputMute` is set.
`sqrtf` is an external library call and is passed as the oracle `sqrtF`. -/

/-- `PEAK_DECAY = 0.97f` — peak-hold decay factor per block. -/
def PEAK_DECAY : ℚ := 97/100

/-- The metering loop's peak accumulator:
`if (absL > pkL) pkL = absL` starting from `0.0f`, i.e. a running maximum of
absolute values. -/
def blockPeak (xs : List ℚ) : ℚ := xs.foldl (fun pk x => max pk |x|) 0

/-- The metering loop's sum-of-squares accumulator. -/
def blockSumSq (xs : List ℚ) : ℚ := xs.foldl (fun acc x => acc + x * x) 0

/-- Interleave the two output channels: `outBuf[2i] = L, outBuf[2i+1] = R`. -/
def interleave : List ℤ → List ℤ → List ℤ
  | a :: as, b :: bs => a :: b :: interleave as bs
  | _, _ => []

/-- Result of the output stage: the int16 buffer handed to `i2s_write` and the
published levels. -/
structure OutputStageResult where
  outBuf : List ℤ
  levels : AudioLevels

/-- Steps 9–12 of `AudioEngine::processLoop` for one block, with the two
post-AGC float channels as input.  `sqrtF` models `sqrtf`. -/
def outputStage (sqrtF : ℚ → ℚ) (p : AudioEngineParams) (prev : AudioLevels)
    (floatL floatR : List ℚ) : OutputStageResult :=
  -- step 9: apply output gain
  let gL := floatL.map (fun x => x * p.outputGain)
  let gR := floatR.map (fun x => x * p.outputGain)
  -- step 10: RMS + peak metering (from the gained, pre-mute samples)
  let levels : AudioLevels := { prev with
    rmsLeft := sqrtF (blockSumSq gL / (floatL.length : ℚ))
    rmsRight := sqrtF (blockSumSq gR / (floatR.length : ℚ))
    peakLeft := max (blockPeak gL) (prev.peakLeft * PEAK_DECAY)
    peakRight := max (blockPeak gR) (prev.peakRight * PEAK_DECAY) }
  -- step 11: clamp to [-1, 1] and convert to interleaved int16
  let outBuf := interleave (gL.map clampToI16) (gR.map clampToI16)
  -- step 12: mute zeroes the produced buffer (after metering)
  let outBuf := if p.outputMute then List.replicate outBuf.length 0 else outBuf
  ⟨outBuf, levels⟩

/-- Boost configuration of end-to-end scenario 5: boost on, gain 3.0, mute off. -/
def boostParams : AudioEngineParams :=
  { defaultParams with boostEnabled := true, outputGain := 3, outputMute := false }

/-!  ## AEC frame bridge (`struct AecRingBuf` and processLoop step 7, AEC mode)  -/

/-- `struct AecRingBuf`: a 512-slot accumulator.  The model keeps exactly the
written prefix `buf[0 .. writePos)` as a list (cells beyond `writePos` are
never read by the engine), so `writePos` is the list length. -/
structure AecRingBuf where
  buf : List ℚ
deriving Repr, DecidableEq

/-- `AecRingBuf::reset()` / the initial state: `writePos = 0`. -/
def AecRingBuf.empty : AecRingBuf := ⟨[]⟩

/-- `writePos` — number of samples accumulated. -/
def AecRingBuf.writePos (r : AecRingBuf) : ℕ := r.buf.length

/-- `AecRingBuf::push(data, count)`: copy samples while `writePos < 512`;
anything beyond the 512th slot is discarded. -/
def AecRingBuf.push (r : AecRingBuf) (data : List ℚ) : AecRingBuf :=
  ⟨r.buf ++ data.take (512 - r.buf.length)⟩

/-- `AecRingBuf::ready()`: a full 512-sample frame is available. -/
def AecRingBuf.ready (r : AecRingBuf) : Prop := 512 ≤ r.writePos

instance (r : AecRingBuf) : Decidable r.ready := by
  unfold AecRingBuf.ready; infer_instance

/-- `AecRingBuf::consume()`: `writePos = 0`. -/
def AecRingBuf.consume (r : AecRingBuf) : AecRingBuf := ⟨[]⟩

/-- The worker-local state of the AEC frame bridge inside `processLoop`:
three input rings, the two output rings (modelled by their live contents
`buf[0 .. writePos)`), and the `aecOutputReady` startup flag. -/
structure AecBridgeState where
  inL : AecRingBuf
  inR : AecRingBuf
  inHP : AecRingBuf
  outL : List ℚ
  outR : List ℚ
  outputReady : Bool

/-- Element-wise AEC blend `x = (1−blend)·x + blend·clamp(aec, −1, 1)` over the
first `min(samplesRead, outCount)` samples, leaving the tail unchanged
(the NaN substitution of the source is vacuous over ℚ). -/
def blendInto (blend : ℚ) : List ℚ → List ℚ → List ℚ
  | o :: os, u :: us => ((1 - blend) * o + blend * clampQ u (-1) 1) :: blendInto blend os us
  | os, [] => os
  | [], _ => []

/-- One block of the AEC voice-exclusion branch of `processLoop`
(`localParams.veMode == 1`, handles live).  Oracles: `aecProcL`/`aecProcR`
model the external `aec_process` per channel (512-sample int16 frames in,
one frame out); `upL`/`upR` model the `upsample3` invocations on the drained
output chunk (the VAD call touches only the `vadSpeechDetected` flag, not the
signal, and is omitted).  Inputs: the current bridge state, the blend
parameter, the three downsampled 160-sample sub-blocks produced by
`downsample3`, and the 48 kHz block `floatL`/`floatR`.  Returns the new
bridge state and the (possibly modified) block. -/
def aecBlockStep (aecProcL aecProcR : List ℤ → List ℤ → List ℤ)
    (upL upR : List ℚ → List ℚ)
    (st : AecBridgeState) (blend : ℚ)
    (down16L down16R down16HP : List ℚ)
    (floatL floatR : List ℚ) : AecBridgeState × List ℚ × List ℚ :=
  -- push 160 samples into the input rings
  let inL := st.inL.push down16L
  let inR := st.inR.push down16R
  let inHP := st.inHP.push down16HP
  -- when 512 samples are accumulated, process one AEC frame
  let st1 : AecBridgeState :=
    if inL.ready ∧ inR.ready ∧ inHP.ready then
      let frameL := inL.buf.map clampToI16
      let frameR := inR.buf.map clampToI16
      let frameRef := inHP.buf.map clampToI16
      let out16L := aecProcL frameL frameRef
      let out16R := aecProcR frameR frameRef
      { inL := inL.consume, inR := inR.consume, inHP := inHP.consume,
        outL := out16L.map (fun v => (v : ℚ) / 32768),
        outR := out16R.map (fun v => (v : ℚ) / 32768),
        outputReady := true }
    else
      { st with inL := inL, inR := inR, inHP := inHP }
  -- drain up to 160 output samples, upsample, blend into the block;
  -- during the startup transient (no output yet) pass through unchanged
  if st1.outputReady ∧ 0 < st1.outL.length then
    let consumeCount := min 160 st1.outL.length
    let chunkL := st1.outL.take consumeCount
    let chunkR := st1.outR.take consumeCount
    let st2 := { st1 with
      outL := st1.outL.drop consumeCount
      outR := st1.outR.drop consumeCount }
    let newL := blendInto blend floatL ((upL chunkL).take (3 * consumeCount))
    let newR := blendInto blend floatR ((upR chunkR).take (3 * consumeCount))
    (st2, newL, newR)
  else
    (st1, floatL, floatR)

/-!  ## Helper lemmas  -/

/-- `truncQ` on an integer value is that integer. -/
theorem truncQ_intCast (n : ℤ) : truncQ (n : ℚ) = n := by
  unfold truncQ
  rw [Rat.num_intCast, Rat.den_intCast]
  exact Int.tdiv_one n

/-- Any pre-clip value of at least 1.0 converts to the full-scale sample. -/
theorem clampToI16_of_one_le (x : ℚ) (h : 1 ≤ x) : clampToI16 x = 32767 := by
  unfold clampToI16
  have hc : clampQ x (-1) 1 = 1 := by
    unfold clampQ
    rw [max_eq_left (le_trans (by norm_num) h), min_eq_right h]
  rw [hc, one_mul]
  have := truncQ_intCast 32767
  norm_num at this
  exact this

/-- The divergence guard yields a weight of magnitude at most 10. -/
theorem abs_guardWeight_le (w : ℚ) : |guardWeight w| ≤ 10 := by
  unfold guardWeight
  split
  · simp
  · next h => exact le_of_not_lt h

/-- A single `NlmsFilter.process` call keeps every weight within `[-10, 10]`
(each tap is either freshly guarded or, with `len = 0`, unchanged). -/
theorem NlmsFilter.process_weights_le (s : NlmsFilter)
    (hw : ∀ w ∈ s.weights, |w| ≤ 10) (x d μ : ℚ) :
    ∀ w ∈ (s.process x d μ).2.weights, |w| ≤ 10 := by
  unfold NlmsFilter.process
  by_cases h : s.len = 0
  · simpa [h] using hw
  · intro w hwmem
    simp only [h, if_neg, ite_false] at hwmem
    rw [List.mem_map] at hwmem
    obtain ⟨i, -, rfl⟩ := hwmem
    exact abs_guardWeight_le _

/-- `processAll` preserves the weight bound. -/
theorem NlmsFilter.processAll_weights_le (calls : List (ℚ × ℚ × ℚ)) :
    ∀ s : NlmsFilter, (∀ w ∈ s.weights, |w| ≤ 10) →
      ∀ w ∈ (s.processAll calls).weights, |w| ≤ 10 := by
  induction calls with
  | nil => intro s hs; simpa [NlmsFilter.processAll] using hs
  | cons c cs ih =>
    intro s hs
    have h1 := s.process_weights_le hs c.1 c.2.1 c.2.2
    simpa [NlmsFilter.processAll, List.foldl_cons] using ih _ h1

/-- A biquad whose coefficients are the identity set and whose state is zero
maps every sample sequence to itself and keeps its state. -/
theorem Biquad.identity_processList (xs : List ℚ) :
    ∀ bq : Biquad, bq.b0 = 1 → bq.b1 = 0 → bq.b2 = 0 → bq.a1 = 0 → bq.a2 = 0 →
      bq.z1 = 0 → bq.z2 = 0 → bq.processList xs = (xs, bq) := by
  induction xs with
  | nil => intro bq _ _ _ _ _ _ _; rfl
  | cons x xs ih =>
    intro bq h0 h1 h2 ha1 ha2 hz1 hz2
    obtain ⟨b0, b1, b2, a1, a2, z1, z2⟩ := bq
    simp only at h0 h1 h2 ha1 ha2 hz1 hz2
    subst h0 h1 h2 ha1 ha2 hz1 hz2
    simp only [Biquad.processList, Biquad.process]
    norm_num
    rw [ih ⟨1, 0, 0, 0, 0, 0, 0⟩ rfl rfl rfl rfl rfl rfl rfl]
    exact ⟨rfl, rfl⟩

/-- Running maximum of absolute values stays below any bound dominating the
accumulator and all elements. -/
theorem blockPeak_foldl_le (c : ℚ) (xs : List ℚ) :
    ∀ acc : ℚ, acc ≤ c → (∀ x ∈ xs, |x| ≤ c) →
      xs.foldl (fun pk x => max pk |x|) acc ≤ c := by
  induction xs with
  | nil => intro acc hacc _; simpa using hacc
  | cons x xs ih =>
    intro acc hacc hxs
    simp only [List.foldl_cons]
    exact ih _ (max_le hacc (hxs x (by simp))) (fun y hy => hxs y (by simp [hy]))

/-- `blockPeak` is at most any nonnegative bound on the samples. -/
theorem blockPeak_le (xs : List ℚ) (c : ℚ) (hc : 0 ≤ c) (h : ∀ x ∈ xs, |x| ≤ c) :
    blockPeak xs ≤ c :=
  blockPeak_foldl_le c xs 0 hc h

/-- Closed form of the circular index `(pos + len - i) % len`. -/
theorem nlmsIdx_eq (n p i : ℕ) (hp : p < n) (hi : i < n) :
    nlmsIdx n p i = if i ≤ p then p - i else p + n - i := by
  unfold nlmsIdx
  rcases le_or_lt i p with h | h
  · have e : p + n - i = (p - i) + n := by omega
    rw [if_pos h, e, Nat.add_mod_right, Nat.mod_eq_of_lt (by omega)]
  · rw [if_neg (by omega), Nat.mod_eq_of_lt (by omega)]

/-- The circular index stays inside the buffer. -/
theorem nlmsIdx_lt (n p i : ℕ) (hn : 0 < n) : nlmsIdx n p i < n :=
  Nat.mod_lt _ hn

/-- The circular index map is an involution on `[0, len)`. -/
theorem nlmsIdx_invol (n p i : ℕ) (hp : p < n) (hi : i < n) :
    nlmsIdx n p (nlmsIdx n p i) = i := by
  rw [nlmsIdx_eq n p i hp hi]
  split
  · next hle =>
    rw [nlmsIdx_eq n p _ hp (by omega), if_pos (by omega)]
    omega
  · next hgt =>
    rw [nlmsIdx_eq n p _ hp (by omega), if_neg (by omega)]
    omega

/-- Reindexing a sum over the buffer through the circular index map is a
permutation: the power accumulated as `Σ_i r[(p−i) mod L]²` equals the plain
`Σ_j r[j]²`. -/
theorem sum_nlmsIdx (g : ℕ → ℚ) (n p : ℕ) (hp : p < n) :
    ∑ i ∈ Finset.range n, g (nlmsIdx n p i) = ∑ j ∈ Finset.range n, g j := by
  have hn : 0 < n := lt_of_le_of_lt (Nat.zero_le p) hp
  refine Finset.sum_nbij' (fun i => nlmsIdx n p i) (fun j => nlmsIdx n p j) ?_ ?_ ?_ ?_ ?_
  · intro a ha; exact Finset.mem_range.mpr (nlmsIdx_lt n p a hn)
  · intro a ha; exact Finset.mem_range.mpr (nlmsIdx_lt n p a hn)
  · intro a ha; exact nlmsIdx_invol n p a hp (Finset.mem_range.mp ha)
  · intro a ha; exact nlmsIdx_invol n p a hp (Finset.mem_range.mp ha)
  · intro a ha; rfl

/-!  ## Claims  -/

/-- C1: For every NLMS filter instance and every sequence of
`process(ref, primary, stepSize)` calls, after each call every weight
satisfies `|w[i]| ≤ 10`: the update resets any tap whose absolute value
exceeds 10 to 0 in place.  (Stated over an arbitrary call sequence from a
freshly initialised filter of any length; each prefix of a sequence is
itself a sequence, so the bound holds after every call.) -/
theorem nlms_weights_bounded (L : ℕ) (calls : List (ℚ × ℚ × ℚ)) :
    ∀ w ∈ ((NlmsFilter.init L).processAll calls).weights, |w| ≤ 10 := by
  refine NlmsFilter.processAll_weights_le calls (NlmsFilter.init L) ?_
  intro w hw
  have hw2 : w ∈ List.replicate L (0:ℚ) := by simpa [NlmsFilter.init] using hw
  rw [List.eq_of_mem_replicate hw2]
  norm_num

/-- C6: A peaking-EQ coefficient set computed with gain magnitude below
0.1 dB is the identity biquad (`b0 = 1`, `b1 = b2 = a1 = a2 = 0`), and
processing any sample sequence through that biquad from reset state returns
every input sample bit-exactly unchanged (state stays at zero). -/
theorem peakEq_bypass_identity (bq : Biquad) (gainDb Q A cosw0 sinw0 : ℚ)
    (xs : List ℚ) (h : |gainDb| < 1/10) :
    ((calcPeakEqCoeffs bq gainDb Q A cosw0 sinw0).b0 = 1 ∧
     (calcPeakEqCoeffs bq gainDb Q A cosw0 sinw0).b1 = 0 ∧
     (calcPeakEqCoeffs bq gainDb Q A cosw0 sinw0).b2 = 0 ∧
     (calcPeakEqCoeffs bq gainDb Q A cosw0 sinw0).a1 = 0 ∧
     (calcPeakEqCoeffs bq gainDb Q A cosw0 sinw0).a2 = 0) ∧
    ((calcPeakEqCoeffs bq gainDb Q A cosw0 sinw0).reset).processList xs
      = (xs, (calcPeakEqCoeffs bq gainDb Q A cosw0 sinw0).reset) := by
  have hco : calcPeakEqCoeffs bq gainDb Q A cosw0 sinw0
      = { bq with b0 := 1, b1 := 0, b2 := 0, a1 := 0, a2 := 0 } := by
    unfold calcPeakEqCoeffs
    rw [if_pos h]
  rw [hco]
  refine ⟨⟨rfl, rfl, rfl, rfl, rfl⟩, ?_⟩
  exact Biquad.identity_processList xs _ rfl rfl rfl rfl rfl rfl rfl

/-- Witness for C6 at a concrete filter, gain 0 dB and the block `[3, -2]`. -/
theorem peakEq_bypass_identity_witness :
    |(0:ℚ)| < 1/10 ∧
    ((calcPeakEqCoeffs ⟨2, 3, 4, 5, 6, 7, 8⟩ 0 (14/10) 1 (1/2) (1/2)).reset).processList [3, -2]
      = ([3, -2], (calcPeakEqCoeffs ⟨2, 3, 4, 5, 6, 7, 8⟩ 0 (14/10) 1 (1/2) (1/2)).reset) :=
  ⟨by norm_num,
   (peakEq_bypass_identity ⟨2, 3, 4, 5, 6, 7, 8⟩ 0 (14/10) 1 (1/2) (1/2) [3, -2]
     (by norm_num)).2⟩

/-- C3: In every block with the mute parameter asserted, every sample written
to the codec is 0, while the published levels are those computed from the
pre-mute (non-zeroed) samples — identical to the levels an unmuted run of the
same block would publish. -/
theorem mute_zeroes_after_metering (sqrtF : ℚ → ℚ) (p : AudioEngineParams)
    (prev : AudioLevels) (floatL floatR : List ℚ) :
    (∀ v ∈ (outputStage sqrtF { p with outputMute := true } prev floatL floatR).outBuf, v = 0) ∧
    (outputStage sqrtF { p with outputMute := true } prev floatL floatR).levels
      = (outputStage sqrtF { p with outputMute := false } prev floatL floatR).levels := by
  constructor
  · intro v hv
    simp only [outputStage, if_pos, List.mem_replicate] at hv
    exact hv.2
  · rfl

/-- C4 (code evaluated at the failing configuration): the output stage ignores
`boostEnabled` entirely — toggling it never changes the produced block or the
levels — and with boost requested, gain 3.0 and mute off, the two distinct
over-range inputs 0.5 and 1.0 (pre-clip values 1.5 and 3.0) both produce the
full-scale output sample 32767: a hard-limit plateau, not a soft-saturation
curve. -/
theorem boost_soft_clip_missing :
    (∀ (sqrtF : ℚ → ℚ) (p : AudioEngineParams) (prev : AudioLevels)
       (floatL floatR : List ℚ) (b : Bool),
        outputStage sqrtF { p with boostEnabled := b } prev floatL floatR
          = outputStage sqrtF p prev floatL floatR) ∧
    (outputStage (fun x => x) boostParams zeroLevels [1/2] [1/2]).outBuf = [32767, 32767] ∧
    (outputStage (fun x => x) boostParams zeroLevels [1] [1]).outBuf = [32767, 32767] := by
  refine ⟨fun sqrtF p prev floatL floatR b => rfl, ?_, ?_⟩
  · simp only [outputStage, boostParams, defaultParams, List.map_cons, List.map_nil, interleave]
    norm_num
    exact clampToI16_of_one_le _ (by norm_num)
  · simp only [outputStage, boostParams, defaultParams, List.map_cons, List.map_nil, interleave]
    norm_num
    exact clampToI16_of_one_le _ (by norm_num)

/-- C5 (code evaluated at the failing input): `setOutputGain(5)` stores 4 —
the setter clamps to `[0, 4]`, not to the declared legal range `[0, 6]`
under which 5 would be stored unchanged. -/
theorem setOutputGain_clamps_to_four :
    (∀ st : AudioEngineParams, (AudioEngine.setOutputGain st 5).outputGain = 4) ∧
    clampQ 5 0 6 = 5 ∧ (4:ℚ) ≠ 5 := by
  refine ⟨fun st => ?_, by norm_num [clampQ], by norm_num⟩
  show clampQ 5 0 4 = 4
  norm_num [clampQ]

/-- C7 counterexample: `setParams` stores the record verbatim, so for the
out-of-range record with `micGain = 500` a subsequent `getParams` does NOT
return the field-wise clamped record (which would have `micGain = 240`). -/
theorem setParams_no_clamp_counterexample :
    AudioEngine.getParams (AudioEngine.setParams defaultParams outOfRangeParams)
      ≠ clampParams outOfRangeParams := by
  intro h
  have h2 := congrArg AudioEngineParams.micGain h
  simp only [AudioEngine.getParams, AudioEngine.setParams, clampParams, outOfRangeParams,
    defaultParams, clampQ] at h2
  norm_num at h2

/-- C7 (amended): after `setParams(p)`, `getParams()` returns `p` exactly —
no clamping is applied by the bulk setter — and consequently the claimed
round trip `getParams() = clampParams p` holds precisely for records already
inside the declared bounds. -/
theorem setParams_getParams_verbatim (st p : AudioEngineParams) :
    AudioEngine.getParams (AudioEngine.setParams st p) = p ∧
    (clampParams p = p →
      AudioEngine.getParams (AudioEngine.setParams st p) = clampParams p) :=
  ⟨rfl, fun h =>
    (show AudioEngine.getParams (AudioEngine.setParams st p) = p from rfl).trans h.symm⟩

/-- Witness for C7 (amended) at the default record, which is in range. -/
theorem setParams_getParams_verbatim_witness :
    clampParams defaultParams = defaultParams ∧
    AudioEngine.getParams (AudioEngine.setParams defaultParams defaultParams)
      = clampParams defaultParams := by
  have hc : clampParams defaultParams = defaultParams := by
    norm_num [clampParams, defaultParams, AudioEngineParams.mk.injEq, clampQ, clampZ]
  exact ⟨hc, (setParams_getParams_verbatim defaultParams defaultParams).2 hc⟩

/-- C8: each published peak register is `max(block peak, previous × 0.97)`,
and when no post-gain sample of the block exceeds `previous × 0.97` the
published peak equals exactly `previous × 0.97` (given the invariant that the
previous register values are nonnegative). -/
theorem peak_meter_hold (sqrtF : ℚ → ℚ) (p : AudioEngineParams) (prev : AudioLevels)
    (floatL floatR : List ℚ) (hL : 0 ≤ prev.peakLeft) (hR : 0 ≤ prev.peakRight) :
    ((outputStage sqrtF p prev floatL floatR).levels.peakLeft
        = max (blockPeak (floatL.map (fun x => x * p.outputGain))) (prev.peakLeft * PEAK_DECAY) ∧
     (outputStage sqrtF p prev floatL floatR).levels.peakRight
        = max (blockPeak (floatR.map (fun x => x * p.outputGain))) (prev.peakRight * PEAK_DECAY)) ∧
    ((∀ x ∈ floatL.map (fun x => x * p.outputGain), |x| ≤ prev.peakLeft * PEAK_DECAY) →
      (outputStage sqrtF p prev floatL floatR).levels.peakLeft = prev.peakLeft * PEAK_DECAY) ∧
    ((∀ x ∈ floatR.map (fun x => x * p.outputGain), |x| ≤ prev.peakRight * PEAK_DECAY) →
      (outputStage sqrtF p prev floatL floatR).levels.peakRight = prev.peakRight * PEAK_DECAY) := by
  have hdL : (0:ℚ) ≤ prev.peakLeft * PEAK_DECAY := mul_nonneg hL (by norm_num [PEAK_DECAY])
  have hdR : (0:ℚ) ≤ prev.peakRight * PEAK_DECAY := mul_nonneg hR (by norm_num [PEAK_DECAY])
  refine ⟨⟨rfl, rfl⟩, ?_, ?_⟩
  · intro hall
    exact max_eq_right (blockPeak_le _ _ hdL hall)
  · intro hall
    exact max_eq_right (blockPeak_le _ _ hdR hall)

/-- Witness for C8: previous peak 1, default gain 1.5, block `[1/2]` whose
post-gain peak 3/4 stays below `1 × 0.97`, so the register decays exactly. -/
theorem peak_meter_hold_witness :
    (0:ℚ) ≤ 1 ∧
    (outputStage (fun x => x) defaultParams ⟨0, 0, 1, 1, 0, 0, false⟩ [1/2] []).levels.peakLeft
      = 1 * PEAK_DECAY := by
  refine ⟨by norm_num, ?_⟩
  have h := (peak_meter_hold (fun x => x) defaultParams ⟨0, 0, 1, 1, 0, 0, false⟩ [1/2] []
      (by norm_num) (by norm_num)).2.1
  refine h ?_
  intro x hx
  simp only [defaultParams, List.map_cons, List.map_nil, List.mem_singleton] at hx
  subst hx
  norm_num [PEAK_DECAY]
  rw [show |(3:ℚ)/4| = 3/4 from abs_of_nonneg (by norm_num)]
  norm_num

/-- Witness for C1: the weight of a freshly initialised length-1 filter is a
member of the weight vector and is bounded by 10. -/
theorem nlms_weights_bounded_witness :
    (0:ℚ) ∈ ((NlmsFilter.init 1).processAll []).weights ∧ |(0:ℚ)| ≤ 10 := by
  have hmem : (0:ℚ) ∈ ((NlmsFilter.init 1).processAll []).weights := by
    simp [NlmsFilter.processAll, NlmsFilter.init]
  exact ⟨hmem, nlms_weights_bounded 1 [] 0 hmem⟩

/-- Closed form of one `process` call on a length-1 filter. -/
theorem NlmsFilter.process_len_one (w r0 x d μ : ℚ) :
    (NlmsFilter.mk 1 [w] [r0] 0).process x d μ
      = (w * x,
         ⟨1, [guardWeight (w + μ / (x * x + 1/1000000) * (d - w * x) * x)], [x], 0⟩) := by
  have hidx : nlmsIdx 1 0 0 = 0 := by norm_num [nlmsIdx]
  simp only [NlmsFilter.process, Finset.sum_range_one, List.set_cons_zero,
    show List.range 1 = [0] from rfl, List.map_cons, List.map_nil, hidx,
    List.getD_cons_zero, List.getElem?_cons_zero, Option.getD_some, guardWeight]
  norm_num

/-- Closed form of one claim-C2-style `processSpec` call on a length-1 filter. -/
theorem NlmsFilter.processSpec_len_one (w r0 x d μ : ℚ) :
    (NlmsFilter.mk 1 [w] [r0] 0).processSpec x d μ
      = (w * x, ⟨1, [w + μ / (x * x + 1/1000000) * (d - w * x) * x], [x], 0⟩) := by
  have hidx : nlmsIdx 1 0 0 = 0 := by norm_num [nlmsIdx]
  simp only [NlmsFilter.processSpec, Finset.sum_range_one, List.set_cons_zero,
    show List.range 1 = [0] from rfl, List.map_cons, List.map_nil, hidx,
    List.getD_cons_zero, List.getElem?_cons_zero, Option.getD_some]

/-- C2 counterexample: on a freshly initialised length-1 filter,
`process(1, 100, 1)` leaves the weight vector `[0]` — the tap computed by the
claimed update rule, `100·10⁶/(10⁶+1) ≈ 99.9999`, exceeds the magnitude bound
10 and is reset in place — whereas the claim's step list (which omits the
reset) yields a nonzero tap.  So one call does not perform *exactly* the
claimed steps. -/
theorem nlms_process_not_exactly_as_claimed :
    ((NlmsFilter.init 1).process 1 100 1).2.weights
      ≠ ((NlmsFilter.init 1).processSpec 1 100 1).2.weights := by
  have hinit : NlmsFilter.init 1 = NlmsFilter.mk 1 [0] [0] 0 := rfl
  rw [hinit, NlmsFilter.process_len_one, NlmsFilter.processSpec_len_one]
  have hval : (0:ℚ) + 1 / (1 * 1 + 1/1000000) * (100 - 0 * 1) * 1 = 100000000/1000001 := by
    norm_num
  simp only [hval]
  have hguard : guardWeight (100000000/1000001) = 0 := by
    unfold guardWeight
    rw [if_pos]
    rw [show |(100000000:ℚ)/1000001| = 100000000/1000001 from abs_of_nonneg (by norm_num)]
    norm_num
  rw [hguard]
  intro h
  have := List.head_eq_of_cons_eq h
  norm_num at this

/-- C2 (amended): one `process(x, d, μ)` call performs the claimed steps —
store `r[p] = x`, estimate `ŷ = Σ w[i]·r[(p−i) mod L]`, power `P = Σ r²`,
unclamped error, normalised step `μ/(P+1e-6)`, tap update, advance `p`,
return `ŷ` — except that each updated tap additionally passes through the
divergence guard (reset to 0 when its magnitude exceeds 10): `process`
equals `processSpec` with `guardWeight` mapped over the updated weights. -/
theorem nlms_process_eq_spec_guarded (s : NlmsFilter) (x d μ : ℚ) (hp : s.pos < s.len) :
    s.process x d μ
      = ((s.processSpec x d μ).1,
         ⟨(s.processSpec x d μ).2.len,
          (s.processSpec x d μ).2.weights.map guardWeight,
          (s.processSpec x d μ).2.refBuf,
          (s.processSpec x d μ).2.pos⟩) := by
  have hn : ¬ s.len = 0 := by omega
  have hpow := sum_nlmsIdx
    (fun j => (s.refBuf.set s.pos x).getD j 0 * (s.refBuf.set s.pos x).getD j 0)
    s.len s.pos hp
  simp only [NlmsFilter.process, NlmsFilter.processSpec]
  rw [if_neg hn, hpow, List.map_map]
  rfl

/-- Witness for C2 (amended) on a freshly initialised length-1 filter. -/
theorem nlms_process_eq_spec_guarded_witness :
    (NlmsFilter.init 1).pos < (NlmsFilter.init 1).len ∧
    (NlmsFilter.init 1).process 1 2 1
      = (((NlmsFilter.init 1).processSpec 1 2 1).1,
         ⟨((NlmsFilter.init 1).processSpec 1 2 1).2.len,
          ((NlmsFilter.init 1).processSpec 1 2 1).2.weights.map guardWeight,
          ((NlmsFilter.init 1).processSpec 1 2 1).2.refBuf,
          ((NlmsFilter.init 1).processSpec 1 2 1).2.pos⟩) :=
  ⟨by norm_num [NlmsFilter.init],
   nlms_process_eq_spec_guarded (NlmsFilter.init 1) 1 2 1 (by norm_num [NlmsFilter.init])⟩

/-- A push that leaves the ring short of 512 samples appends fully. -/
theorem AecRingBuf.push_buf_of_lt (r : AecRingBuf) (d : List ℚ)
    (h : r.writePos + d.length < 512) : (r.push d).buf = r.buf ++ d := by
  unfold AecRingBuf.push
  rw [List.take_of_length_le]
  unfold AecRingBuf.writePos at h
  omega

/-- A push short of 512 samples advances `writePos` by the pushed count. -/
theorem AecRingBuf.push_writePos_of_lt (r : AecRingBuf) (d : List ℚ)
    (h : r.writePos + d.length < 512) : (r.push d).writePos = r.writePos + d.length := by
  show (r.push d).buf.length = _
  rw [r.push_buf_of_lt d h, List.length_append]
  rfl

/-- A push short of 512 samples leaves the ring not ready. -/
theorem AecRingBuf.not_ready_of_lt (r : AecRingBuf) (d : List ℚ)
    (h : r.writePos + d.length < 512) : ¬ (r.push d).ready := by
  unfold AecRingBuf.ready
  rw [r.push_writePos_of_lt d h]
  omega

/-- C9: in AEC voice-exclusion mode the frame bridge never modifies the
primary signal before 512 samples have accumulated: for any block processed
while the input ring still holds fewer than 512 samples after this block's
160-sample push and no output frame exists (`aecOutputReady` false), the
block leaves the stage unchanged, the startup flag stays false, and the ring
merely accumulates the pushed samples. -/
theorem aec_startup_passthrough (aecProcL aecProcR : List ℤ → List ℤ → List ℤ)
    (upL upR : List ℚ → List ℚ) (st : AecBridgeState) (blend : ℚ)
    (down16L down16R down16HP floatL floatR : List ℚ)
    (hL : st.inL.writePos + down16L.length < 512)
    (hR : st.inR.writePos + down16R.length < 512)
    (hHP : st.inHP.writePos + down16HP.length < 512)
    (hready : st.outputReady = false) :
    (aecBlockStep aecProcL aecProcR upL upR st blend down16L down16R down16HP
        floatL floatR).2.1 = floatL ∧
    (aecBlockStep aecProcL aecProcR upL upR st blend down16L down16R down16HP
        floatL floatR).2.2 = floatR ∧
    (aecBlockStep aecProcL aecProcR upL upR st blend down16L down16R down16HP
        floatL floatR).1.outputReady = false ∧
    (aecBlockStep aecProcL aecProcR upL upR st blend down16L down16R down16HP
        floatL floatR).1.inL.writePos = st.inL.writePos + down16L.length := by
  have nr1 : ¬ (st.inL.push down16L).ready := st.inL.not_ready_of_lt down16L hL
  have nwp : (st.inL.push down16L).writePos = st.inL.writePos + down16L.length :=
    st.inL.push_writePos_of_lt down16L hL
  have hcond : ¬ ((st.inL.push down16L).ready ∧ (st.inR.push down16R).ready ∧
      (st.inHP.push down16HP).ready) := fun hand => nr1 hand.1
  simp only [aecBlockStep, if_neg hcond, hready]
  rw [if_neg (by simp)]
  exact ⟨rfl, rfl, rfl, nwp⟩

/-- Witness for C9: the first block after AEC creation (empty rings, output
flag clear) passes `[1]`/`[2]` through unchanged. -/
theorem aec_startup_passthrough_witness :
    (AecRingBuf.empty.writePos + (List.replicate 160 (0:ℚ)).length < 512) ∧
    (AecBridgeState.mk AecRingBuf.empty AecRingBuf.empty AecRingBuf.empty [] [] false).outputReady
      = false ∧
    (aecBlockStep (fun a b => a) (fun a b => a) (fun a => a) (fun a => a)
        (AecBridgeState.mk AecRingBuf.empty AecRingBuf.empty AecRingBuf.empty [] [] false) (1/2)
        (List.replicate 160 0) (List.replicate 160 0) (List.replicate 160 0)
        [1] [2]).2.1 = [1] := by
  refine ⟨by simp [AecRingBuf.empty, AecRingBuf.writePos], rfl, ?_⟩
  exact (aec_startup_passthrough (fun a b => a) (fun a b => a) (fun a => a) (fun a => a)
    _ (1/2) _ _ _ [1] [2]
    (by simp [AecRingBuf.empty, AecRingBuf.writePos])
    (by simp [AecRingBuf.empty, AecRingBuf.writePos])
    (by simp [AecRingBuf.empty, AecRingBuf.writePos]) rfl).1

/-- C10: `AecRingBuf.push` stops storing once 512 samples are held and the
excess is discarded: pushing four 160-sample blocks into an empty ring keeps
the first three pushes below readiness, reaches readiness on the fourth, and
the accumulated frame is `b1 ++ b2 ++ b3 ++ take 32 b4` of length 512 — the
last 128 samples of the fourth block are dropped and never reach the external
AEC. -/
theorem aec_ring_drops_excess (b1 b2 b3 b4 : List ℚ)
    (h1 : b1.length = 160) (h2 : b2.length = 160)
    (h3 : b3.length = 160) (h4 : b4.length = 160) :
    ¬ (AecRingBuf.empty.push b1).ready ∧
    ¬ ((AecRingBuf.empty.push b1).push b2).ready ∧
    ¬ (((AecRingBuf.empty.push b1).push b2).push b3).ready ∧
    ((((AecRingBuf.empty.push b1).push b2).push b3).push b4).ready ∧
    ((((AecRingBuf.empty.push b1).push b2).push b3).push b4).buf
      = b1 ++ b2 ++ b3 ++ b4.take 32 ∧
    ((((AecRingBuf.empty.push b1).push b2).push b3).push b4).writePos = 512 := by
  have e1 : (AecRingBuf.empty.push b1).buf = b1 := by
    have := AecRingBuf.push_buf_of_lt AecRingBuf.empty b1
      (by simp [AecRingBuf.empty, AecRingBuf.writePos, h1])
    simpa [AecRingBuf.empty] using this
  have w1 : (AecRingBuf.empty.push b1).writePos = 160 := by
    show (AecRingBuf.empty.push b1).buf.length = 160
    rw [e1, h1]
  have e2 : ((AecRingBuf.empty.push b1).push b2).buf = b1 ++ b2 := by
    have := AecRingBuf.push_buf_of_lt (AecRingBuf.empty.push b1) b2 (by rw [w1, h2]; omega)
    rw [e1] at this
    exact this
  have w2 : ((AecRingBuf.empty.push b1).push b2).writePos = 320 := by
    show ((AecRingBuf.empty.push b1).push b2).buf.length = 320
    rw [e2, List.length_append, h1, h2]
  have e3 : (((AecRingBuf.empty.push b1).push b2).push b3).buf = (b1 ++ b2) ++ b3 := by
    have := AecRingBuf.push_buf_of_lt ((AecRingBuf.empty.push b1).push b2) b3
      (by rw [w2, h3]; omega)
    rw [e2] at this
    exact this
  have w3 : (((AecRingBuf.empty.push b1).push b2).push b3).writePos = 480 := by
    show (((AecRingBuf.empty.push b1).push b2).push b3).buf.length = 480
    rw [e3, List.length_append, List.length_append, h1, h2, h3]
  have e4 : ((((AecRingBuf.empty.push b1).push b2).push b3).push b4).buf
      = ((b1 ++ b2) ++ b3) ++ b4.take 32 := by
    show ((((AecRingBuf.empty.push b1).push b2).push b3).buf
        ++ b4.take (512 - (((AecRingBuf.empty.push b1).push b2).push b3).buf.length)) = _
    rw [e3]
    have hlen : ((b1 ++ b2) ++ b3).length = 480 := by
      rw [List.length_append, List.length_append, h1, h2, h3]
    rw [hlen]
  have w4 : ((((AecRingBuf.empty.push b1).push b2).push b3).push b4).writePos = 512 := by
    show ((((AecRingBuf.empty.push b1).push b2).push b3).push b4).buf.length = 512
    rw [e4, List.length_append, List.length_take, h4]
    simp [List.length_append, h1, h2, h3]
  refine ⟨?_, ?_, ?_, ?_, ?_, w4⟩
  · unfold AecRingBuf.ready
    rw [w1]
    omega
  · unfold AecRingBuf.ready
    rw [w2]
    omega
  · unfold AecRingBuf.ready
    rw [w3]
    omega
  · unfold AecRingBuf.ready
    rw [w4]
  · rw [e4, List.append_assoc, List.append_assoc]

/-- Witness for C10 with four concrete all-zero 160-sample blocks. -/
theorem aec_ring_drops_excess_witness :
    (List.replicate 160 (0:ℚ)).length = 160 ∧
    ((((AecRingBuf.empty.push (List.replicate 160 (0:ℚ))).push
        (List.replicate 160 0)).push (List.replicate 160 0)).push
        (List.replicate 160 0)).writePos = 512 :=
  ⟨by simp,
   (aec_ring_drops_excess (List.replicate 160 0) (List.replicate 160 0)
     (List.replicate 160 0) (List.replicate 160 0)
     (by simp) (by simp) (by simp) (by simp)).2.2.2.2.2⟩
